import Mathlib

/-!
Shallow embedding of `src/main.py` (manas-news-notifications).

The program scrapes the news listing of manas.edu.kg for four locales,
deduplicates articles against a sqlite table keyed by `(id, locale)`,
renders the newly found articles as an HTML digest and sends it to a
Telegram chat.  Pure functions of the source become Lean functions;
the sqlite table becomes an explicit list of `(id, locale)` rows; the
per-locale loop of `main` becomes explicit state passing; code that can
raise (`int(...)`, `strptime`, indexing `[-1]` on an empty list) returns
`Except`/`Option`.  Python strings are Lean `String`s, with the string
operations the source uses (`split`, `strip`, `in`, `int`) re-implemented
on the character list so that every definition evaluates by `rfl`/`decide`.
-/

namespace Manas

/-- Python-string helper: drop leading whitespace characters
(the character class `str.strip()` / `int()` strip: space, tab,
newline, carriage return, vertical tab, form feed). -/
def isSpaceChar (c : Char) : Bool :=
  c = ' ' || c = '\t' || c = '\n' || c = '\r' || c = '\x0b' || c = '\x0c'

/-- Drop leading whitespace of a character list. -/
def dropLeadingSpaces : List Char → List Char
  | [] => []
  | c :: cs => if isSpaceChar c then dropLeadingSpaces cs else c :: cs

/-- Python `s.strip()` on a character list: drop trailing then leading whitespace. -/
def pyStripChars (l : List Char) : List Char :=
  dropLeadingSpaces (dropLeadingSpaces l.reverse).reverse

/-- Python `s.strip()`. -/
def pyStrip (s : String) : String :=
  String.mk (pyStripChars s.data)

/-- Python `s.split(sep)` for a single-character separator, on character lists.
`splitOnChar '/' "a/b"` gives `["a","b"]`; the empty string gives `[""]`,
exactly as in Python. -/
def splitOnChar (sep : Char) : List Char → List (List Char)
  | [] => [[]]
  | c :: cs =>
    let rest := splitOnChar sep cs
    if c = sep then [] :: rest
    else
      match rest with
      | [] => [[c]]
      | g :: gs => (c :: g) :: gs

/-- Python substring test `pat in s` on character lists (`pat` nonempty in all uses). -/
def containsSeq (pat : List Char) : List Char → Bool
  | [] => pat.isEmpty
  | c :: cs => pat.isPrefixOf (c :: cs : List Char) || containsSeq pat cs

/-- Python `pat in s` for strings. -/
def strContains (s pat : String) : Bool :=
  containsSeq pat.data s.data

/-- Parse a digit character. -/
def charDigit? (c : Char) : Option Nat :=
  if 48 ≤ c.toNat ∧ c.toNat ≤ 57 then some (c.toNat - 48) else none

/-- Parse a nonempty all-digit character list into a natural number. -/
def digitsAcc? : List Char → Nat → Option Nat
  | [], acc => some acc
  | c :: cs, acc =>
    match charDigit? c with
    | none => none
    | some d => digitsAcc? cs (acc * 10 + d)

/-- Parse a nonempty all-digit character list (none on the empty list). -/
def digitsToNat? (l : List Char) : Option Nat :=
  match l with
  | [] => none
  | _ => digitsAcc? l 0

/-- Python `int(s)`: strip whitespace, optional sign, decimal digits; `none`
models the `ValueError` raised on any other shape.  (Underscore digit
separators and non-ASCII digits, which CPython also accepts, are not
modelled; no input of this program contains them.) -/
def pyInt? (s : String) : Option Int :=
  match pyStripChars s.data with
  | [] => none
  | c :: rest =>
    if c = '-' then (digitsToNat? rest).map (fun n => -(n : Int))
    else if c = '+' then (digitsToNat? rest).map (fun n => (n : Int))
    else (digitsToNat? (c :: rest)).map (fun n => (n : Int))

/-- `enum.StrEnum` `Locale` of the source: values "kg", "ru", "en", "tr",
iterated in definition order. -/
inductive Locale where
  | kg
  | ru
  | en
  | tr
deriving DecidableEq, Repr

/-- String value of a locale (`str(locale)` in Python). -/
def localeStr : Locale → String
  | .kg => "kg"
  | .ru => "ru"
  | .en => "en"
  | .tr => "tr"

/-- Iteration order of `for locale in Locale` in `main` (definition order). -/
def allLocales : List Locale := [.kg, .ru, .en, .tr]

/-- Calendar date as produced by `datetime.datetime.strptime(_, '%d.%m.%Y')`. -/
structure Date where
  day : Nat
  month : Nat
  year : Nat
deriving DecidableEq, Repr

/-- Gregorian leap-year test, as in `datetime`. -/
def isLeapYear (y : Nat) : Bool :=
  (y % 4 = 0 && y % 100 ≠ 0) || y % 400 = 0

/-- Days in a month, as validated by the `datetime` constructor. -/
def daysInMonth (m y : Nat) : Nat :=
  if m = 2 then (if isLeapYear y then 29 else 28)
  else if m = 4 ∨ m = 6 ∨ m = 9 ∨ m = 11 then 30
  else 31

/-- `datetime.datetime.strptime(s, '%d.%m.%Y')`: `%d` and `%m` match one or
two digits (value ranges enforced), `%Y` matches exactly four digits, the
literal dots must match, and the resulting day must exist in the month.
`none` models the `ValueError` raised otherwise. -/
def parseDate? (s : String) : Option Date :=
  match splitOnChar '.' s.data with
  | [d, m, y] =>
    if 1 ≤ d.length ∧ d.length ≤ 2 ∧ 1 ≤ m.length ∧ m.length ≤ 2 ∧ y.length = 4 then
      match digitsToNat? d, digitsToNat? m, digitsToNat? y with
      | some dd, some mm, some yy =>
        if 1 ≤ dd ∧ 1 ≤ mm ∧ mm ≤ 12 ∧ dd ≤ daysInMonth mm yy then
          some ⟨dd, mm, yy⟩
        else none
      | _, _, _ => none
    else none
  | _ => none

/-- Chronological order on dates (comparison of `datetime` values). -/
def dateLe (a b : Date) : Bool :=
  decide (a.year < b.year ∨ (a.year = b.year ∧
    (a.month < b.month ∨ (a.month = b.month ∧ a.day ≤ b.day))))

/-- Dataclass `NewsArticle` of the source. -/
structure NewsArticle where
  id : Int
  locale : Locale
  title : String
  date : Date
deriving DecidableEq, Repr

/-- Derived property `NewsArticle.url`. -/
def NewsArticle.url (a : NewsArticle) : String :=
  "https://manas.edu.kg/" ++ localeStr a.locale ++ "/news/" ++ toString a.id

/-- `operator.attrgetter('locale')`. -/
def get_locale (a : NewsArticle) : Locale := a.locale

/-- `operator.attrgetter('date')`. -/
def get_date (a : NewsArticle) : Date := a.date

/-- State of the sqlite table `news_articles (id, locale, PRIMARY KEY (id, locale))`,
as the list of its rows in insertion order.  The `locale TEXT` column stores
`str(locale)`, which is in bijection with `Locale`. -/
abbrev DB := List (Int × Locale)

/-- One `INSERT ... ON CONFLICT (id, locale) DO NOTHING` of a single key. -/
def insertKey (db : DB) (k : Int × Locale) : DB :=
  if k ∈ db then db else db ++ [k]

/-- `Database.insert_article`: `executemany` of the conflict-ignoring insert
over the supplied articles, in order. -/
def insert_article (db : DB) (news_articles : List NewsArticle) : DB :=
  news_articles.foldl (fun d a => insertKey d (a.id, a.locale)) db

/-- `Database.get_article_ids`: `SELECT id FROM news_articles WHERE locale = ?`.
The Python function returns the ids as a set; here they are returned as a
list and used only through membership. -/
def get_article_ids (db : DB) (locale : Locale) : List Int :=
  (db.filter (fun r => decide (r.2 = locale))).map Prod.fst

/-- The first `<a>` of a `post-news-body` block: `href` attribute (absent
attribute gives `None` in BeautifulSoup) and inner text. -/
structure Anchor where
  href : Option String
  text : String
deriving DecidableEq, Repr

/-- One `article.post-news` block, reduced to the parts the source reads:
its first anchor (if any) and the texts of its `<span>` descendants. -/
structure Block where
  anchor : Option Anchor
  spans : List String
deriving DecidableEq, Repr

/-- Exceptions that `NewsService.get_news` can raise per block:
`ValueError` from `int(...)` on a non-numeric trailing path segment,
`IndexError` from `find_all('span')[-1]` on a block without spans,
`ValueError` from `strptime` on an unparsable date text. -/
inductive ExtractErr where
  | badId (segment : String)
  | noDateSpan
  | badDate (text : String)
deriving DecidableEq, Repr

/-- Body of the per-block loop of `NewsService.get_news`: `ok none` models
`continue` (missing anchor, missing `href`, or `'news/' not in short_link`),
`error` models a raised exception, `ok (some a)` models appending an article. -/
def extractBlock (locale : Locale) (b : Block) : Except ExtractErr (Option NewsArticle) :=
  match b.anchor with
  | none => .ok none
  | some anchor =>
    match anchor.href with
    | none => .ok none
    | some short_link =>
      if strContains short_link "news/" then
        let seg := String.mk ((splitOnChar '/' short_link.data).getLastD [])
        match pyInt? seg with
        | none => .error (.badId seg)
        | some news_id =>
          let title := pyStrip anchor.text
          match b.spans.getLast? with
          | none => .error .noDateSpan
          | some spanText =>
            match parseDate? (pyStrip spanText) with
            | none => .error (.badDate (pyStrip spanText))
            | some d => .ok (some ⟨news_id, locale, title, d⟩)
      else .ok none

/-- `NewsService.get_news`, given the parsed blocks of the fetched document:
processes blocks in order, collects extracted articles, and propagates the
first raised exception (losing the whole result, as an uncaught Python
exception does). -/
def get_news (locale : Locale) : List Block → Except ExtractErr (List NewsArticle)
  | [] => .ok []
  | b :: rest =>
    match extractBlock locale b with
    | .error e => .error e
    | .ok none => get_news locale rest
    | .ok (some a) =>
      match get_news locale rest with
      | .error e => .error e
      | .ok tail' => .ok (a :: tail')

/-- `LOCALE_TO_NEWS_TRANSLATION`. -/
def LOCALE_TO_NEWS_TRANSLATION : Locale → String
  | .ru => "🇷🇺 Новости"
  | .kg => "🇰🇬 Жаңылыктар"
  | .en => "🇬🇧 News"
  | .tr => "🇹🇷 Haberler"

/-- Left pad a natural number to two digits (`%d` / `%m` formatting). -/
def pad2 (n : Nat) : String :=
  if n < 10 then "0" ++ toString n else toString n

/-- Left pad a natural number to four digits (`%Y` formatting). -/
def pad4 (n : Nat) : String :=
  if n < 10 then "000" ++ toString n
  else if n < 100 then "00" ++ toString n
  else if n < 1000 then "0" ++ toString n
  else toString n

/-- `f'{date:%d.%m.%Y}'`. -/
def formatDate (d : Date) : String :=
  pad2 d.day ++ "." ++ pad2 d.month ++ "." ++ pad4 d.year

/-- `itertools.groupby(_, key=key)`: groups of *adjacent* elements with equal
key, in input order — a key that reappears after a different key starts a new
group. -/
def groupby {κ : Type} [DecidableEq κ] (key : NewsArticle → κ) :
    List NewsArticle → List (κ × List NewsArticle)
  | [] => []
  | a :: rest =>
    match groupby key rest with
    | [] => [(key a, [a])]
    | (k, g) :: t =>
      if key a = k then (k, a :: g) :: t else (key a, [a]) :: (k, g) :: t

/-- Stable descending insertion: place `a` before the first element whose date
is ≤ `a`'s, so earlier input elements precede later ones with an equal date. -/
def insertDesc (a : NewsArticle) : List NewsArticle → List NewsArticle
  | [] => [a]
  | b :: rest =>
    if dateLe b.date a.date then a :: b :: rest else b :: insertDesc a rest

/-- `sorted(articles, key=get_date, reverse=True)`: CPython's sort is stable,
also with `reverse=True` (equal-key elements keep their input order); a stable
insertion sort computes the same list. -/
def sortDescByDate : List NewsArticle → List NewsArticle
  | [] => []
  | a :: rest => insertDesc a (sortDescByDate rest)

/-- Concatenated map over a list. -/
def concatMap {α β : Type} (f : α → List β) : List α → List β
  | [] => []
  | x :: xs => f x ++ concatMap f xs

/-- `'\n'.join(lines)`. -/
def joinWith (sep : String) : List String → String
  | [] => ""
  | [x] => x
  | x :: y :: rest => x ++ sep ++ joinWith sep (y :: rest)

/-- The locale groups of `render_news_articles` after the in-loop sort:
`itertools.groupby` by locale, each group sorted descending by date. -/
def renderGroups (news_articles : List NewsArticle) : List (Locale × List NewsArticle) :=
  (groupby get_locale news_articles).map (fun p => (p.1, sortDescByDate p.2))

/-- Lines emitted for one date group: the bolded date line (with its leading
newline) followed by one bullet per article. -/
def renderDateLines (p : Date × List NewsArticle) : List String :=
  ("\n<b>" ++ formatDate p.1 ++ "</b>") ::
    p.2.map (fun a => "• <a href=\"" ++ a.url ++ "\">" ++ a.title ++ "</a>")

/-- Lines emitted for one locale group: bolded localized header, the date
groups (`itertools.groupby` by date over the sorted group), and the trailing
blank line appended after each locale section. -/
def renderLocaleLines (p : Locale × List NewsArticle) : List String :=
  ("<b>" ++ LOCALE_TO_NEWS_TRANSLATION p.1 ++ "</b>") ::
    concatMap renderDateLines (groupby get_date p.2) ++ ["\n"]

/-- `render_news_articles`. -/
def render_news_articles (news_articles : List NewsArticle) : String :=
  joinWith "\n" (concatMap renderLocaleLines (renderGroups news_articles))

/-- Count of (possibly overlapping) occurrences of `pat` in a character list;
used to count section headers in rendered output. -/
def countSeq (pat : List Char) : List Char → Nat
  | [] => 0
  | c :: cs => (if pat.isPrefixOf (c :: cs : List Char) then 1 else 0) + countSeq pat cs

/-- Count of occurrences of `pat` in `s`. -/
def countSub (pat s : String) : Nat :=
  countSeq pat.data s.data

/-- `news_articles = [a for a in news_articles if a.id not in article_ids]`. -/
def filterNew (arts : List NewsArticle) (ids : List Int) : List NewsArticle :=
  arts.filter (fun a => !(decide (a.id ∈ ids)))

/-- Body of one iteration of the locale loop of `main`, after extraction:
diff against the stored ids, and if any article is new, insert the new ones,
render them and send the digest.  Returns the new database state and the sent
message, if any. -/
def runLocale (locale : Locale) (arts : List NewsArticle) (db : DB) :
    DB × Option String :=
  let new := filterNew arts (get_article_ids db locale)
  if new.isEmpty then (db, none)
  else (insert_article db new, some (render_news_articles new))

/-- Result of one pass of `main` over the locales: final database state, sent
messages in order (tagged with their locale), and the first uncaught
exception, if any. -/
structure PassResult where
  db : DB
  sent : List (Locale × String)
  err : Option ExtractErr
deriving DecidableEq, Repr

/-- The locale loop of `main`.  `env` gives the parsed blocks of the document
fetched for each locale.  There is no `try`/`except` in `main`: an exception
raised while processing one locale propagates and ends the whole pass, so the
remaining locales are not processed. -/
def runPass (env : Locale → List Block) : List Locale → DB → PassResult
  | [], db => ⟨db, [], none⟩
  | l :: rest, db =>
    match get_news l (env l) with
    | .error e => ⟨db, [], some e⟩
    | .ok arts =>
      let p := runLocale l arts db
      let r := runPass env rest p.1
      ⟨r.db, (match p.2 with | some t => (l, t) :: r.sent | none => r.sent), r.err⟩

/-- Whether an `Except` is an error. -/
def isErrorE {ε α : Type} : Except ε α → Bool
  | .error _ => true
  | .ok _ => false

/-- Order in which `sorted(..., reverse=True)` leaves adjacent elements:
the left one's date is at least the right one's. -/
def descRel (a b : NewsArticle) : Prop := dateLe b.date a.date = true

/-- Fixture: EN article id 1 dated 2024-01-02. -/
def en1 : NewsArticle := ⟨1, .en, "A", ⟨2, 1, 2024⟩⟩

/-- Fixture: RU article id 2 dated 2024-01-01. -/
def ru2 : NewsArticle := ⟨2, .ru, "B", ⟨1, 1, 2024⟩⟩

/-- Fixture: EN article id 3 dated 2024-01-02. -/
def en3 : NewsArticle := ⟨3, .en, "C", ⟨2, 1, 2024⟩⟩

/-- Fixture: a block whose link matches the article-path shape but whose
trailing segment is not numeric. -/
def badIdBlock : Block := ⟨some ⟨some "news/abc", "Promo"⟩, ["02.01.2024"]⟩

/-- Fixture: a block with a valid link but no date span. -/
def noSpanBlock : Block := ⟨some ⟨some "news/9", "T"⟩, []⟩

/-- Fixture: a block with a valid link whose date span does not parse. -/
def badBlock : Block := ⟨some ⟨some "news/5", "t"⟩, ["bad-date"]⟩

/-- Fixture: a fully well-formed article block for the RU locale. -/
def goodBlock : Block := ⟨some ⟨some "https://manas.edu.kg/ru/news/7", "Hello"⟩, ["02.01.2024"]⟩

/-- Fixture environment: the KG document breaks extraction, the RU document
yields one article, the others are empty. -/
def env0 : Locale → List Block
  | .kg => [badBlock]
  | .ru => [goodBlock]
  | _ => []

/-- The article extracted from `goodBlock`. -/
def ruArt : NewsArticle := ⟨7, .ru, "Hello", ⟨2, 1, 2024⟩⟩

end Manas

namespace Manas

set_option maxRecDepth 8000

/-- `dateLe` is reflexive. -/
theorem dateLe_refl (a : Date) : dateLe a a = true := by
  simp [dateLe]

/-- `dateLe` is total. -/
theorem dateLe_total (a b : Date) : dateLe a b = true ∨ dateLe b a = true := by
  simp [dateLe]
  omega

/-- `dateLe` is transitive. -/
theorem dateLe_trans {a b c : Date} (h1 : dateLe a b = true) (h2 : dateLe b c = true) :
    dateLe a c = true := by
  simp [dateLe] at h1 h2 ⊢
  omega

/-- Membership after a stable descending insertion. -/
theorem mem_insertDesc {a c : NewsArticle} {s : List NewsArticle}
    (h : c ∈ insertDesc a s) : c = a ∨ c ∈ s := by
  induction s with
  | nil =>
    simp [insertDesc] at h
    exact Or.inl h
  | cons b rest ih =>
    by_cases hle : dateLe b.date a.date = true
    · simp only [insertDesc, if_pos hle] at h
      rcases List.mem_cons.mp h with h1 | h1
      · exact Or.inl h1
      · exact Or.inr h1
    · simp only [insertDesc, if_neg hle] at h
      rcases List.mem_cons.mp h with h1 | h1
      · exact Or.inr (List.mem_cons.mpr (Or.inl h1))
      · rcases ih h1 with h2 | h2
        · exact Or.inl h2
        · exact Or.inr (List.mem_cons.mpr (Or.inr h2))

/-- Stable descending insertion preserves descending order. -/
theorem pairwise_insertDesc {a : NewsArticle} {s : List NewsArticle}
    (hp : s.Pairwise descRel) : (insertDesc a s).Pairwise descRel := by
  induction s with
  | nil => simp [insertDesc, List.pairwise_cons]
  | cons b rest ih =>
    rcases List.pairwise_cons.mp hp with ⟨hb, hrest⟩
    by_cases hle : dateLe b.date a.date = true
    · simp only [insertDesc, if_pos hle]
      refine List.pairwise_cons.mpr ⟨?_, hp⟩
      intro c hc
      rcases List.mem_cons.mp hc with rfl | hc'
      · exact hle
      · exact dateLe_trans (hb c hc') hle
    · simp only [insertDesc, if_neg hle]
      refine List.pairwise_cons.mpr ⟨?_, ih hrest⟩
      intro c hc
      rcases mem_insertDesc hc with rfl | hc'
      · rcases dateLe_total b.date c.date with h1 | h1
        · exact absurd h1 hle
        · exact h1
      · exact hb c hc'

/-- The sorted list is pairwise descending by date. -/
theorem sortDescByDate_pairwise (l : List NewsArticle) :
    (sortDescByDate l).Pairwise descRel := by
  induction l with
  | nil => simp [sortDescByDate]
  | cons a rest ih => exact pairwise_insertDesc ih

/-- Elements with the inserted element's date: the inserted element lands in
front of all of them, the rest keep their order. -/
theorem filter_insertDesc_pos {d : Date} {a : NewsArticle} (s : List NewsArticle)
    (h : a.date = d) :
    (insertDesc a s).filter (fun x => decide (x.date = d))
      = a :: s.filter (fun x => decide (x.date = d)) := by
  induction s with
  | nil => simp [insertDesc, h]
  | cons b rest ih =>
    by_cases hle : dateLe b.date a.date = true
    · simp only [insertDesc, if_pos hle, List.filter_cons]
      simp [h]
    · have hbd : ¬ b.date = d := by
        intro hbd
        exact hle (by rw [hbd, ← h]; exact dateLe_refl a.date)
      simp only [insertDesc, if_neg hle, List.filter_cons]
      simp [hbd, ih]

/-- Elements with a date other than the inserted element's are untouched. -/
theorem filter_insertDesc_neg {d : Date} {a : NewsArticle} (s : List NewsArticle)
    (h : ¬ a.date = d) :
    (insertDesc a s).filter (fun x => decide (x.date = d))
      = s.filter (fun x => decide (x.date = d)) := by
  induction s with
  | nil => simp [insertDesc, h]
  | cons b rest ih =>
    by_cases hle : dateLe b.date a.date = true
    · simp only [insertDesc, if_pos hle, List.filter_cons]
      simp [h]
    · simp only [insertDesc, if_neg hle, List.filter_cons]
      simp [ih]

/-- Stability of the descending sort: for every date, the articles carrying
that date appear in the sorted list exactly in their input order. -/
theorem sortDescByDate_filter (l : List NewsArticle) (d : Date) :
    (sortDescByDate l).filter (fun x => decide (x.date = d))
      = l.filter (fun x => decide (x.date = d)) := by
  induction l with
  | nil => rfl
  | cons a rest ih =>
    show (insertDesc a (sortDescByDate rest)).filter (fun x => decide (x.date = d))
      = (a :: rest).filter (fun x => decide (x.date = d))
    by_cases h : a.date = d
    · rw [filter_insertDesc_pos (sortDescByDate rest) h, ih, List.filter_cons]
      simp [h]
    · rw [filter_insertDesc_neg (sortDescByDate rest) h, ih, List.filter_cons]
      simp [h]

/-- Concatenating the groups of `groupby` gives back the input in order. -/
theorem groupby_flatten {κ : Type} [DecidableEq κ] (key : NewsArticle → κ)
    (l : List NewsArticle) : concatMap Prod.snd (groupby key l) = l := by
  induction l with
  | nil => rfl
  | cons a rest ih =>
    cases hg : groupby key rest with
    | nil =>
      have hrest : rest = [] := by
        have h := ih
        rw [hg] at h
        simpa [concatMap] using h.symm
      subst hrest
      simp [groupby, concatMap]
    | cons p t =>
      obtain ⟨k, g⟩ := p
      have ih' : g ++ concatMap Prod.snd t = rest := by
        have h := ih
        rw [hg] at h
        simpa [concatMap] using h
      by_cases hk : key a = k
      · simp only [groupby, hg, if_pos hk, concatMap]
        simp [ih']
      · simp only [groupby, hg, if_neg hk, concatMap]
        simp [ih']

/-- The inserted key is in the table afterwards. -/
theorem mem_insertKey_self (db : DB) (k : Int × Locale) : k ∈ insertKey db k := by
  unfold insertKey
  by_cases h : k ∈ db
  · rw [if_pos h]; exact h
  · rw [if_neg h]; simp

/-- Inserting a key keeps every existing row. -/
theorem mem_insertKey_of_mem {db : DB} {c : Int × Locale} (k : Int × Locale)
    (h : c ∈ db) : c ∈ insertKey db k := by
  unfold insertKey
  by_cases hk : k ∈ db
  · rw [if_pos hk]; exact h
  · rw [if_neg hk]; exact List.mem_append_left _ h

/-- `ON CONFLICT DO NOTHING`: inserting a present key is a no-op. -/
theorem insertKey_of_mem {db : DB} {k : Int × Locale} (h : k ∈ db) :
    insertKey db k = db := by
  simp [insertKey, h]

/-- `insert_article` keeps every existing row. -/
theorem mem_insert_article_of_mem {arts : List NewsArticle} {c : Int × Locale} :
    ∀ {db : DB}, c ∈ db → c ∈ insert_article db arts := by
  induction arts with
  | nil => intro db h; exact h
  | cons a rest ih =>
    intro db h
    exact ih (mem_insertKey_of_mem (a.id, a.locale) h)

/-- After `insert_article`, the key of every supplied article is in the table. -/
theorem key_mem_insert_article {a : NewsArticle} :
    ∀ arts : List NewsArticle, a ∈ arts →
      ∀ db : DB, (a.id, a.locale) ∈ insert_article db arts := by
  intro arts
  induction arts with
  | nil => intro h; cases h
  | cons b rest ih =>
    intro ha db
    rcases List.mem_cons.mp ha with rfl | ha'
    · show (a.id, a.locale) ∈ insert_article (insertKey db (a.id, a.locale)) rest
      exact mem_insert_article_of_mem (mem_insertKey_self db (a.id, a.locale))
    · exact ih ha' (insertKey db (b.id, b.locale))

/-- Inserting a batch twice leaves the table as inserting it once. -/
theorem insert_article_idem (arts : List NewsArticle) :
    ∀ db : DB, insert_article (insert_article db arts) arts = insert_article db arts := by
  induction arts with
  | nil => intro db; rfl
  | cons a rest ih =>
    intro db
    show insert_article
        (insertKey (insert_article (insertKey db (a.id, a.locale)) rest) (a.id, a.locale)) rest
      = insert_article (insertKey db (a.id, a.locale)) rest
    rw [insertKey_of_mem (mem_insert_article_of_mem (mem_insertKey_self db (a.id, a.locale)))]
    exact ih (insertKey db (a.id, a.locale))

/-- Inserting a key never duplicates a row. -/
theorem nodup_insertKey {db : DB} (k : Int × Locale) (h : db.Nodup) :
    (insertKey db k).Nodup := by
  unfold insertKey
  by_cases hk : k ∈ db
  · simpa [hk]
  · simp [hk, List.nodup_append, h]

/-- `insert_article` never duplicates a row. -/
theorem nodup_insert_article (arts : List NewsArticle) :
    ∀ {db : DB}, db.Nodup → (insert_article db arts).Nodup := by
  induction arts with
  | nil => intro db h; exact h
  | cons a rest ih =>
    intro db h
    exact ih (nodup_insertKey (a.id, a.locale) h)

/-- Membership in the id projection of a locale. -/
theorem mem_get_article_ids {db : DB} {l : Locale} {i : Int} :
    i ∈ get_article_ids db l ↔ (i, l) ∈ db := by
  constructor
  · intro h
    simp only [get_article_ids, List.mem_map, List.mem_filter] at h
    obtain ⟨⟨i', l'⟩, ⟨hmem, hloc⟩, hfst⟩ := h
    simp only [decide_eq_true_eq] at hloc
    simp only at hfst
    subst hloc
    subst hfst
    exact hmem
  · intro h
    simp only [get_article_ids, List.mem_map, List.mem_filter]
    exact ⟨(i, l), ⟨h, by simp⟩, rfl⟩

/-- Inserting a key of a different locale does not change a locale's ids. -/
theorem get_article_ids_insertKey_ne {db : DB} {k : Int × Locale} {l' : Locale}
    (h : k.2 ≠ l') : get_article_ids (insertKey db k) l' = get_article_ids db l' := by
  unfold insertKey
  by_cases hk : k ∈ db
  · simp [hk]
  · simp [hk, get_article_ids, List.filter_append, List.filter, h]

/-- Inserting articles of one locale does not change another locale's ids. -/
theorem get_article_ids_insert_ne {l l' : Locale} (hne : l ≠ l') :
    ∀ arts : List NewsArticle, (∀ a ∈ arts, a.locale = l) →
      ∀ db : DB, get_article_ids (insert_article db arts) l' = get_article_ids db l' := by
  intro arts
  induction arts with
  | nil => intro _ db; rfl
  | cons a rest ih =>
    intro hall db
    have hkey : (a.id, a.locale).2 ≠ l' := by
      have h := hall a (List.mem_cons.mpr (Or.inl rfl))
      simpa [h] using hne
    calc get_article_ids (insert_article (insertKey db (a.id, a.locale)) rest) l'
        = get_article_ids (insertKey db (a.id, a.locale)) l' :=
          ih (fun b hb => hall b (List.mem_cons.mpr (Or.inr hb))) _
      _ = get_article_ids db l' := get_article_ids_insertKey_ne hkey

end Manas


namespace Manas

set_option maxRecDepth 8000

/-- C1 (counterexample): `render` does not merge non-adjacent articles of the
same locale into one section.  On `[en1, ru2, en3]` the locale groups are not
the claimed `[(en, [en1, en3]), (ru, [ru2])]`, and the rendered output
contains the EN section header twice, not once. -/
theorem c1_counterexample :
    renderGroups [en1, ru2, en3] ≠ [(Locale.en, [en1, en3]), (Locale.ru, [ru2])]
    ∧ countSub "<b>🇬🇧 News</b>" (render_news_articles [en1, ru2, en3]) = 2 :=
  ⟨by decide, by decide⟩

/-- C1 (amended): `render` partitions by *adjacent* runs of equal locale
(`itertools.groupby`: a key transition starts a new section, non-adjacent
articles of one locale form separate sections), preserving the overall input
order of articles: on `[en1, ru2, en3]` the sections are EN with id 1, RU with
id 2, EN with id 3, in that order; flattening the groups of any input gives
back the input. -/
theorem c1_amended_adjacent_runs :
    renderGroups [en1, ru2, en3]
      = [(Locale.en, [en1]), (Locale.ru, [ru2]), (Locale.en, [en3])]
    ∧ ∀ l : List NewsArticle, concatMap Prod.snd (groupby get_locale l) = l :=
  ⟨rfl, fun l => groupby_flatten get_locale l⟩

/-- C2 (counterexample): errors are not isolated per locale.  In `env0` the RU
document extracts fine and would produce a notification when processed alone,
but because the earlier KG locale fails to parse, the pass ends at KG and
sends nothing at all. -/
theorem c2_counterexample :
    get_news Locale.ru (env0 Locale.ru) = Except.ok [ruArt]
    ∧ (runLocale Locale.ru [ruArt] []).2.isSome = true
    ∧ (runPass env0 allLocales []).sent = [] :=
  ⟨rfl, rfl, rfl⟩

/-- C2 (amended): `main` has no per-locale error handling: an extraction
failure at a locale aborts the whole pass at that locale — the database keeps
the state reached so far, no message is sent by that or any later locale, and
the error propagates to the process boundary. -/
theorem c2_amended_abort (env : Locale → List Block) (l : Locale) (rest : List Locale)
    (db : DB) (e : ExtractErr) (h : get_news l (env l) = Except.error e) :
    runPass env (l :: rest) db = ⟨db, [], some e⟩ := by
  simp [runPass, h]

/-- C2 (witness for the amended theorem): concrete run of `runPass` on `env0`,
where the first locale (KG) fails. -/
theorem c2_amended_abort_witness :
    runPass env0 allLocales [] = ⟨[], [], some (ExtractErr.badDate "bad-date")⟩ :=
  c2_amended_abort env0 Locale.kg [Locale.ru, Locale.en, Locale.tr] []
    (ExtractErr.badDate "bad-date") rfl

/-- C3 (counterexample): a block whose primary link matches the article-path
shape but with a non-numeric trailing segment is not skipped silently: on a
document with only `badIdBlock`, extraction does not return the empty list but
raises (the `ValueError` of `int('abc')`). -/
theorem c3_counterexample :
    get_news Locale.en [badIdBlock] ≠ Except.ok []
    ∧ get_news Locale.en [badIdBlock] = Except.error (ExtractErr.badId "abc") := by
  have h2 : get_news Locale.en [badIdBlock] = Except.error (ExtractErr.badId "abc") := rfl
  exact ⟨by rw [h2]; intro h; exact Except.noConfusion h, h2⟩

/-- C3 (amended): when the primary link is present and matches the
article-path shape but its trailing path segment is non-numeric, extraction
for the locale raises an error (it does not skip the block); only a missing
anchor, a missing address, or a non-matching path shape are skipped silently. -/
theorem c3_amended_nonnumeric_raises (loc : Locale) (b : Block) (anc : Anchor)
    (href : String) (rest : List Block)
    (h1 : b.anchor = some anc) (h2 : anc.href = some href)
    (h3 : strContains href "news/" = true)
    (h4 : pyInt? (String.mk ((splitOnChar '/' href.data).getLastD [])) = none) :
    get_news loc (b :: rest)
      = Except.error (ExtractErr.badId (String.mk ((splitOnChar '/' href.data).getLastD []))) := by
  have h4' : pyInt? (String.mk ((splitOnChar '/' href.data).getLast?.getD [])) = none := by
    simpa using h4
  have hext : extractBlock loc b
      = Except.error (ExtractErr.badId (String.mk ((splitOnChar '/' href.data).getLastD []))) := by
    simp [extractBlock, h1, h2, h3, h4']
  simp [get_news, hext]

/-- C3 (witness for the amended theorem): concrete failing extraction on
`badIdBlock`. -/
theorem c3_amended_witness :
    get_news Locale.en [badIdBlock]
      = Except.error (ExtractErr.badId (String.mk ((splitOnChar '/' "news/abc".data).getLastD []))) :=
  c3_amended_nonnumeric_raises Locale.en badIdBlock ⟨some "news/abc", "Promo"⟩ "news/abc" []
    rfl rfl rfl rfl

/-- C4: `insert_article` is idempotent — inserting the same batch twice leaves
the table exactly as inserting it once; re-inserting an already present
`(id, locale)` key is a no-op and never an error; rows are never duplicated. -/
theorem c4_record_idempotent (db : DB) (arts : List NewsArticle) :
    insert_article (insert_article db arts) arts = insert_article db arts
    ∧ (∀ k : Int × Locale, k ∈ db → insertKey db k = db)
    ∧ (db.Nodup → (insert_article db arts).Nodup) :=
  ⟨insert_article_idem arts db,
   fun _ hk => insertKey_of_mem hk,
   fun h => nodup_insert_article arts h⟩

/-- C4 (witness): concrete instances of the three conjuncts. -/
theorem c4_record_idempotent_witness :
    insert_article (insert_article [] [en1]) [en1] = insert_article [] [en1]
    ∧ insertKey [((1 : Int), Locale.en)] ((1 : Int), Locale.en) = [((1 : Int), Locale.en)]
    ∧ (insert_article [((1 : Int), Locale.en)] [en1]).Nodup :=
  ⟨(c4_record_idempotent [] [en1]).1,
   (c4_record_idempotent [((1 : Int), Locale.en)] [en1]).2.1 ((1 : Int), Locale.en) (by decide),
   (c4_record_idempotent [((1 : Int), Locale.en)] [en1]).2.2 (by decide)⟩

/-- C5: diff correctness — after `insert_article` has recorded a batch of
articles of one locale, filtering that same batch against
`get_article_ids` of that locale yields the empty list. -/
theorem c5_diff_after_record (db : DB) (arts : List NewsArticle) (l : Locale)
    (hall : ∀ a ∈ arts, a.locale = l) :
    filterNew arts (get_article_ids (insert_article db arts) l) = [] := by
  unfold filterNew
  apply List.filter_eq_nil_iff.mpr
  intro a ha
  have hk : (a.id, a.locale) ∈ insert_article db arts := key_mem_insert_article arts ha db
  rw [hall a ha] at hk
  simp [mem_get_article_ids.mpr hk]

/-- C5 (witness): concrete diff after recording two EN articles. -/
theorem c5_diff_after_record_witness :
    filterNew [en1, en3] (get_article_ids (insert_article [] [en1, en3]) Locale.en) = [] :=
  c5_diff_after_record [] [en1, en3] Locale.en (by decide)

/-- C6: if the filtered set of new articles of a locale is empty, the locale's
iteration performs no insert and sends no message; in particular a second run
over the same articles (against the database state the first run left) inserts
nothing and sends nothing. -/
theorem c6_empty_filter_no_send (l : Locale) (arts : List NewsArticle) (db : DB)
    (hall : ∀ a ∈ arts, a.locale = l) :
    (filterNew arts (get_article_ids db l) = [] → runLocale l arts db = (db, none))
    ∧ runLocale l arts (runLocale l arts db).1 = ((runLocale l arts db).1, none) := by
  constructor
  · intro h
    simp [runLocale, h]
  · cases hh : filterNew arts (get_article_ids db l) with
    | nil => simp [runLocale, hh]
    | cons b rest =>
      have hdb1 : (runLocale l arts db).1 = insert_article db (b :: rest) := by
        simp [runLocale, hh]
      have hempty : filterNew arts (get_article_ids (insert_article db (b :: rest)) l) = [] := by
        unfold filterNew
        apply List.filter_eq_nil_iff.mpr
        intro a ha
        by_cases hmem : a.id ∈ get_article_ids db l
        · have hrow : (a.id, l) ∈ db := mem_get_article_ids.mp hmem
          have hrow' : (a.id, l) ∈ insert_article db (b :: rest) :=
            mem_insert_article_of_mem hrow
          simp [mem_get_article_ids.mpr hrow']
        · have hin : a ∈ filterNew arts (get_article_ids db l) := by
            unfold filterNew
            exact List.mem_filter.mpr ⟨ha, by simp [hmem]⟩
          rw [hh] at hin
          have hk : (a.id, a.locale) ∈ insert_article db (b :: rest) :=
            key_mem_insert_article (b :: rest) hin db
          rw [hall a ha] at hk
          simp [mem_get_article_ids.mpr hk]
      rw [hdb1]
      simp [runLocale, hempty]

/-- C6 (witness): concrete empty-filter run and concrete second run. -/
theorem c6_empty_filter_no_send_witness :
    runLocale Locale.en [] [] = ([], none)
    ∧ runLocale Locale.en [en1] (runLocale Locale.en [en1] []).1
        = ((runLocale Locale.en [en1] []).1, none) :=
  ⟨(c6_empty_filter_no_send Locale.en [] [] (by simp)).1 rfl,
   (c6_empty_filter_no_send Locale.en [en1] [] (by decide)).2⟩

/-- C7: within each locale partition produced by `render`, the articles are
sorted descending by date (pairwise, each article's date is at least the
next one's), and for every date the articles carrying it keep their relative
order from the partition (stable sort); the sorted partition is exactly what
`renderGroups` emits for that locale section. -/
theorem c7_sort_desc_stable (l : List NewsArticle) (k : Locale) (g : List NewsArticle)
    (h : (k, g) ∈ groupby get_locale l) :
    (k, sortDescByDate g) ∈ renderGroups l
    ∧ (sortDescByDate g).Pairwise descRel
    ∧ ∀ d : Date, (sortDescByDate g).filter (fun a => decide (a.date = d))
        = g.filter (fun a => decide (a.date = d)) :=
  ⟨List.mem_map.mpr ⟨(k, g), h, rfl⟩,
   sortDescByDate_pairwise g,
   fun d => sortDescByDate_filter g d⟩

/-- C7 (witness): concrete partition of two same-date EN articles. -/
theorem c7_sort_desc_stable_witness :
    (Locale.en, sortDescByDate [en1, en3]) ∈ renderGroups [en1, en3]
    ∧ (sortDescByDate [en1, en3]).Pairwise descRel
    ∧ ∀ d : Date, (sortDescByDate [en1, en3]).filter (fun a => decide (a.date = d))
        = [en1, en3].filter (fun a => decide (a.date = d)) :=
  c7_sort_desc_stable [en1, en3] Locale.en [en1, en3] (by decide)

/-- C8: a block with a valid primary link (article-path shape, numeric id)
whose date span is absent, or whose last span does not parse in the
`%d.%m.%Y` format, makes extraction for the locale raise an error — the block
is neither skipped nor given a fabricated date. -/
theorem c8_bad_date_errors (loc : Locale) (b : Block) (anc : Anchor) (href : String)
    (n : Int) (rest : List Block)
    (h1 : b.anchor = some anc) (h2 : anc.href = some href)
    (h3 : strContains href "news/" = true)
    (h4 : pyInt? (String.mk ((splitOnChar '/' href.data).getLastD [])) = some n)
    (h5 : b.spans.getLast? = none
      ∨ ∃ s, b.spans.getLast? = some s ∧ parseDate? (pyStrip s) = none) :
    isErrorE (get_news loc (b :: rest)) = true := by
  have h4' : pyInt? (String.mk ((splitOnChar '/' href.data).getLast?.getD [])) = some n := by
    simpa using h4
  have hext : isErrorE (extractBlock loc b) = true := by
    rcases h5 with h5 | ⟨s, hs, hp⟩
    · simp [extractBlock, h1, h2, h3, h4', h5, isErrorE]
    · simp [extractBlock, h1, h2, h3, h4', hs, hp, isErrorE]
  cases he : extractBlock loc b with
  | ok v =>
    rw [he] at hext
    simp [isErrorE] at hext
  | error e => simp [get_news, he, isErrorE]

/-- C8 (witness): concrete failing extraction on a block without a date span. -/
theorem c8_bad_date_errors_witness :
    isErrorE (get_news Locale.en [noSpanBlock]) = true :=
  c8_bad_date_errors Locale.en noSpanBlock ⟨some "news/9", "T"⟩ "news/9" 9 []
    rfl rfl rfl rfl (Or.inl rfl)

/-- C9: SeenStore locale isolation — recording articles that all carry locale
`l` leaves the ids stored for any other locale `l'` unchanged, and
`get_article_ids` returns only ids whose row carries the requested locale. -/
theorem c9_locale_isolation (db : DB) (arts : List NewsArticle) (l l' : Locale)
    (hne : l ≠ l') (hall : ∀ a ∈ arts, a.locale = l) :
    get_article_ids (insert_article db arts) l' = get_article_ids db l'
    ∧ ∀ i : Int, i ∈ get_article_ids db l' → (i, l') ∈ db :=
  ⟨get_article_ids_insert_ne hne arts hall db,
   fun _ hi => mem_get_article_ids.mp hi⟩

/-- C9 (witness): recording an EN article leaves the RU ids of a concrete
table unchanged. -/
theorem c9_locale_isolation_witness :
    get_article_ids (insert_article [((5 : Int), Locale.ru)] [en1]) Locale.ru
      = get_article_ids [((5 : Int), Locale.ru)] Locale.ru :=
  (c9_locale_isolation [((5 : Int), Locale.ru)] [en1] Locale.en Locale.ru
    (by decide) (by decide)).1

/-- C10: `render_news_articles` applied to the empty list of articles returns
the empty string — no headers, no date lines, no bullets. -/
theorem c10_render_empty : render_news_articles [] = "" := rfl

end Manas
